import Mathlib

/-!
Shallow embedding of the study-domain logic of the kanji quiz web application
(`src/App.tsx`).  Strings are modelled as `List Char`; the JavaScript string
operations used by the source (`trim`, `split`, `includes`, regex scans) are
reproduced as executable Lean functions with the same semantics.  Randomness
(array shuffling, random slot selection) is modelled by passing the outcome of
the random step as an explicit argument, constrained by a permutation or range
hypothesis in the theorems.
-/

namespace KanjiGo

/-- The character set treated as whitespace by JavaScript `String.prototype.trim`
(WhiteSpace plus LineTerminator code points). -/
def isJsWhitespace (c : Char) : Bool :=
  c.toNat ∈ [0x9, 0xA, 0xB, 0xC, 0xD, 0x20, 0xA0, 0x1680,
    0x2000, 0x2001, 0x2002, 0x2003, 0x2004, 0x2005, 0x2006, 0x2007,
    0x2008, 0x2009, 0x200A, 0x2028, 0x2029, 0x202F, 0x205F, 0x3000, 0xFEFF]

/-- JavaScript `s.trim()`: drop whitespace from both ends. -/
def trim (s : List Char) : List Char :=
  ((s.dropWhile isJsWhitespace).reverse.dropWhile isJsWhitespace).reverse

/-- JavaScript `s.split(sep)` for a single-character separator: splitting the
empty string yields `[""]`, and separators at the ends produce empty fields. -/
def splitOn (sep : Char) : List Char → List (List Char)
  | [] => [[]]
  | c :: cs =>
    if c = sep then [] :: splitOn sep cs
    else
      match splitOn sep cs with
      | [] => [[c]]
      | cur :: rest => (c :: cur) :: rest

/-- Scanner for `reading.replace(/'[^']*'/g, '')` (source `extractReadingCore`,
App.tsx lines 75-77).  `acc` holds the output built so far; `pending = some buf`
means an opening quote has been seen and `buf` holds the characters after it.
A closing quote discards the whole span (delimiters and contents); a quote that
is never closed is kept verbatim together with the characters after it, exactly
as the regex leaves an unmatched trailing quote in place. -/
def extractReadingCoreGo : List Char → List Char → Option (List Char) → List Char
  | [], acc, none => acc
  | [], acc, some buf => acc ++ '\'' :: buf
  | c :: rest, acc, none =>
    if c = '\'' then extractReadingCoreGo rest acc (some [])
    else extractReadingCoreGo rest (acc ++ [c]) none
  | c :: rest, acc, some buf =>
    if c = '\'' then extractReadingCoreGo rest acc none
    else extractReadingCoreGo rest acc (some (buf ++ [c]))

/-- Source `extractReadingCore` (App.tsx lines 75-77): remove every fully paired
single-quote emphasis span from a reading string. -/
def extractReadingCore (reading : List Char) : List Char :=
  extractReadingCoreGo reading [] none

/-- Pure core of the source `checkAnswer` handler (App.tsx lines 284-306):
split the correct reading on the full-width comma, trim each alternative, and
accept the trimmed user input iff it equals the emphasis-free core of some
alternative. -/
def checkAnswer (correctReading userAnswer : List Char) : Bool :=
  let correctOptions := (splitOn '、' correctReading).map trim
  let userInput := trim userAnswer
  correctOptions.any (fun option => userInput == extractReadingCore option)

/-- One display segment produced by `formatReadingWithOkurigana`: a run of text
that is either plain or emphasized (rendered red in the source). -/
structure Seg where
  text : List Char
  emphasized : Bool
deriving DecidableEq

/-- Append one plain character to a segment list kept in reverse order,
merging it into the head segment when that segment is plain.  This reproduces
the source's behaviour of emitting the whole stretch of text between two regex
matches as a single `<span>`. -/
def pushPlainRev (c : Char) : List Seg → List Seg
  | ⟨t, false⟩ :: rest => ⟨t ++ [c], false⟩ :: rest
  | segs => ⟨[c], false⟩ :: segs

/-- Scanner for the source `formatReadingWithOkurigana` loop (App.tsx lines
42-72), which repeatedly applies the regex `/'([^']+)'/g`.  `segs` holds the
segments built so far in reverse order; `pending = some buf` means an opening
quote has been seen and `buf` holds the span contents so far.  A quote pair
with non-empty contents becomes an emphasized segment; an immediately repeated
quote cannot match (the regex span is non-empty), so the first quote becomes
plain text and the second quote starts a new candidate span; a quote that is
never closed is emitted as plain text together with everything after it. -/
def renderGo : List Char → List Seg → Option (List Char) → List Seg
  | [], segs, none => segs.reverse
  | [], segs, some buf => (('\'' :: buf).foldl (fun ss c => pushPlainRev c ss) segs).reverse
  | c :: rest, segs, none =>
    if c = '\'' then renderGo rest segs (some [])
    else renderGo rest (pushPlainRev c segs) none
  | c :: rest, segs, some buf =>
    if c = '\'' then
      if buf = [] then renderGo rest (pushPlainRev '\'' segs) (some [])
      else renderGo rest (⟨buf, true⟩ :: segs) none
    else renderGo rest segs (some (buf ++ [c]))

/-- Source `formatReadingWithOkurigana` (App.tsx lines 42-72) as a pure segment
decomposition. -/
def formatReadingWithOkurigana (reading : List Char) : List Seg :=
  renderGo reading [] none

/-- Concatenation of the text of all segments. -/
def textConcat (segs : List Seg) : List Char :=
  (segs.map Seg.text).flatten

/-- Well-formedness of a reading string with respect to the emphasis format:
the quote delimiters pair up left to right and every paired span is non-empty.
`pending` mirrors the scanner state of `renderGo`. -/
def wellFormedGo : List Char → Option (List Char) → Bool
  | [], none => true
  | [], some _ => false
  | c :: rest, none =>
    if c = '\'' then wellFormedGo rest (some [])
    else wellFormedGo rest none
  | c :: rest, some buf =>
    if c = '\'' then decide (buf ≠ []) && wellFormedGo rest none
    else wellFormedGo rest (some (buf ++ [c]))

/-- A reading string whose emphasis delimiters pair up with non-empty spans. -/
def wellFormedReading (s : List Char) : Bool :=
  wellFormedGo s none

/-- Loop of the source `parseCSVLine` (App.tsx lines 19-39): walk the line,
toggling quote mode on `"` and splitting on commas outside quotes. -/
def parseCSVLineGo : List Char → List Char → List (List Char) → Bool → List (List Char)
  | [], current, result, _ => result ++ [current]
  | c :: rest, current, result, inQuotes =>
    if c = '"' then parseCSVLineGo rest current result (!inQuotes)
    else if c = ',' ∧ inQuotes = false then parseCSVLineGo rest [] (result ++ [current]) inQuotes
    else parseCSVLineGo rest (current ++ [c]) result inQuotes

/-- Source `parseCSVLine` (App.tsx lines 19-39). -/
def parseCSVLine (line : List Char) : List (List Char) :=
  parseCSVLineGo line [] [] false

/-- The source `Item` record (App.tsx lines 5-12).  `filename` and `meaning`
may be absent at runtime (the row may lack those columns and no default is
applied), hence `Option`; the other string fields are always assigned, with
`|| ''` defaults where the source uses them. -/
structure Item where
  filename : Option (List Char)
  reading : List Char
  meaning : Option (List Char)
  imageUrl : List Char
  additionalInfo : List Char
  components : List Char
deriving DecidableEq

/-- JavaScript `a || b` on a possibly-absent string: an absent or empty value
falls back to the default. -/
def jsOrStr (v : Option (List Char)) (dflt : List Char) : List Char :=
  match v with
  | some s => if s = [] then dflt else s
  | none => dflt

/-- Key under which column `i` is stored by the row loop
`obj[header[i] || 'col' + i] = cols[i].trim()` (App.tsx lines 179-186): the
processed header name when it exists and is non-empty, else the literal
`col` followed by the decimal index. -/
def objKey (header : List (List Char)) (i : Nat) : List Char :=
  match header.get? i with
  | some h => if h = [] then "col".data ++ Nat.toDigits 10 i else h
  | none => "col".data ++ Nat.toDigits 10 i

/-- The plain field mapping built from one data row (App.tsx lines 179-186):
one write per parsed column, keyed by `objKey`, holding the trimmed value. -/
def rowToObj (header : List (List Char)) (cols : List (List Char)) : List (List Char × List Char) :=
  (List.range cols.length).map (fun i => (objKey header i, trim (cols.getD i [])))

/-- JavaScript property read `d[key]`: the last write wins, a never-written
key reads as absent. -/
def objLookup (key : List Char) (obj : List (List Char × List Char)) : Option (List Char) :=
  (obj.reverse.find? (fun p => p.1 == key)).map (fun p => p.2)

/-- Header processing in `load` (App.tsx line 177): parse the header line and
lower-case each trimmed name.  `Char.toLower` models `toLowerCase` on the
ASCII header names the source recognizes. -/
def processHeader (headerLine : List Char) : List (List Char) :=
  (parseCSVLine headerLine).map (fun h => (trim h).map Char.toLower)

/-- Choice of the identifying column (App.tsx line 189): `path` if present,
else `filename`, else the first header name. -/
def filenameField (header : List (List Char)) : List Char :=
  if "path".data ∈ header then "path".data
  else if "filename".data ∈ header then "filename".data
  else header.getD 0 []

/-- The level-scoped base location `/kanji/level-N/` used to resolve relative
image names (App.tsx lines 167 and 194). -/
def levelPathPrefix (selectedLevel : Nat) : List Char :=
  "/kanji/level-".data ++ Nat.toDigits 10 selectedLevel ++ "/".data

/-- The row-to-`Item` mapping of `load` (App.tsx lines 191-203).  A missing
identifying field makes the template literal interpolate the string
`undefined`, as in JavaScript. -/
def rowToItem (selectedLevel : Nat) (header : List (List Char)) (line : List Char) : Item :=
  let cols := parseCSVLine line
  let d := rowToObj header cols
  let fname := objLookup (filenameField header) d
  let imageUrl :=
    match fname with
    | some f => if f.head? = some '/' then f else levelPathPrefix selectedLevel ++ f
    | none => levelPathPrefix selectedLevel ++ "undefined".data
  { filename := fname
    reading := jsOrStr (objLookup "reading".data d) []
    meaning := objLookup "meaning".data d
    imageUrl := imageUrl
    additionalInfo := jsOrStr (objLookup "additional_info".data d) []
    components := jsOrStr (objLookup "components".data d) [] }

/-- The fixed genre list used by the genre filter (App.tsx lines 376-393). -/
def definedGenres : List (List Char) :=
  ["動物".data, "植物・藻類".data, "地名・建造物".data, "人名".data,
   "スラング".data, "飲食".data, "単位".data, "演目・外題".data,
   "則天文字".data, "チュノム".data, "元素".data, "嘘字".data,
   "簡体字".data, "文学の漢字".data, "字義未詳".data, "西夏文字".data]

/-- JavaScript `s.includes(sub)`: sub-string containment. -/
def jsIncludes (s sub : List Char) : Bool :=
  decide (sub <:+: s)

/-- The `all` sentinel tag. -/
def allTag : List Char := "all".data

/-- The `(no genre)` sentinel tag. -/
def noGenreTag : List Char := "ジャンルなし".data

/-- The genre-filtering step of `filteredItems` (App.tsx lines 396-408):
`all` passes everything through, the no-genre sentinel keeps entries whose
tag text contains none of the fixed genre labels, and any other value keeps
entries whose tag text contains it as a sub-string. -/
def filterByGenre (selectedGenre : List Char) (items : List Item) : List Item :=
  if selectedGenre = allTag then items
  else if selectedGenre = noGenreTag then
    items.filter (fun item => !(definedGenres.any (fun genre => jsIncludes item.additionalInfo genre)))
  else items.filter (fun item => jsIncludes item.additionalInfo selectedGenre)

/-- The wrong-answer candidate pool of `generateChoices` (App.tsx line 232):
all entries whose raw reading differs from the correct reading. -/
def wrongAnswerPool (correctItem : Item) (allItems : List Item) : List Item :=
  allItems.filter (fun it => decide (it.reading ≠ correctItem.reading))

/-- The slot-filling loop of `generateChoices` (App.tsx lines 237-250): four
iterations, placing the correct core at `correctIndex` and the cores of the
successive wrong choices elsewhere; `(wrongChoices.get? w).getD []` models
`wrongChoices[wrongIndex] || ''`.  The first `Nat` argument is the number of
remaining iterations (`4 - i`). -/
def choicesLoop (correct : List Char) (wrongChoices : List (List Char)) (correctIndex : Nat) :
    Nat → Nat → Nat → List (List Char)
  | 0, _, _ => []
  | fuel + 1, i, w =>
    if i = correctIndex then
      extractReadingCore correct :: choicesLoop correct wrongChoices correctIndex fuel (i + 1) w
    else
      extractReadingCore ((wrongChoices.get? w).getD []) ::
        choicesLoop correct wrongChoices correctIndex fuel (i + 1) (w + 1)

/-- Source `generateChoices` (App.tsx lines 230-253).  `shuffledOthers` is the
outcome of the random shuffle of the wrong-answer pool and `correctIndex` the
outcome of `Math.floor(Math.random() * 4)`; both are passed in explicitly and
constrained by hypotheses in the theorems. -/
def generateChoices (correctItem : Item) (shuffledOthers : List Item) (correctIndex : Nat) :
    List (List Char) × Nat :=
  let correct := correctItem.reading
  let wrongChoices := (shuffledOthers.take 3).map (fun it => it.reading)
  (choicesLoop correct wrongChoices correctIndex 4 0 0, correctIndex)

/-- Top-level view mode (App.tsx line 15). -/
inductive Mode where
  | list
  | quiz
deriving DecidableEq

/-- Quiz answer format (App.tsx line 16). -/
inductive QuizFormat where
  | input
  | choice
deriving DecidableEq

/-- Search mode of the browsing view (App.tsx line 110). -/
inductive SearchMode where
  | reading
  | component
deriving DecidableEq

/-- The score counters (App.tsx line 120). -/
structure Score where
  correct : Nat
  incorrect : Nat
deriving DecidableEq

/-- The React state of the application component relevant to the study-domain
logic (App.tsx lines 80-132).  `correctChoiceIndex` is an `Int` because the
source initializes it to the sentinel `-1`. -/
structure AppState where
  selectedLevel : Nat
  items : Option (List Item)
  selectedGenre : List Char
  searchQuery : List Char
  searchMode : SearchMode
  mode : Mode
  quizFormat : QuizFormat
  quizItems : List Item
  currentIndex : Nat
  userAnswer : List Char
  showResult : Bool
  isCorrect : Bool
  score : Score
  choices : List (List Char)
  correctChoiceIndex : Int
deriving DecidableEq

/-- Source `startQuiz` (App.tsx lines 216-227).  `shuffled` is the outcome of
`[...items].sort(() => Math.random() - 0.5)`, a permutation of the catalog,
passed in explicitly. -/
def startQuiz (shuffled : List Item) (s : AppState) : AppState :=
  match s.items with
  | none => s
  | some its =>
    if its.length = 0 then s
    else
      { s with quizItems := shuffled, currentIndex := 0, userAnswer := [],
               showResult := false, score := ⟨0, 0⟩, mode := .quiz }

/-- User interactions and effect firings available during a quiz session.
`regenChoices` models the `useEffect` at App.tsx lines 256-262, carrying the
random outcomes (shuffled pool and slot index) of the choice regeneration. -/
inductive Event where
  | typeAnswer (text : List Char)
  | submitAnswer
  | giveUp
  | chooseChoice (idx : Nat)
  | setFormat (f : QuizFormat)
  | nextQuestion
  | backToList
  | regenChoices (shuffledOthers : List Item) (slotIdx : Nat)
deriving DecidableEq

/-- The quiz UI is rendered at all (App.tsx line 561). -/
def inQuizUI (s : AppState) : Bool :=
  decide (s.mode = Mode.quiz) && !s.quizItems.isEmpty

/-- Whether an event can fire in a given state, per the render conditions and
guards of App.tsx: the answer input and its buttons exist only in input format
with no result shown (lines 606-680, with `checkAnswer`/`giveUp` bailing out
on a missing current item); choice buttons ignore clicks once a result is
shown (lines 639-652); the format selector (lines 576-597) and the back button
(line 564) are always active during a quiz; the next button needs a shown
result (line 693); choice regeneration fires under the conditions of the
`useEffect` at line 257. -/
def enabled (s : AppState) : Event → Bool
  | .typeAnswer _ =>
    inQuizUI s && decide (s.quizFormat = QuizFormat.input) && !s.showResult
  | .submitAnswer =>
    inQuizUI s && decide (s.quizFormat = QuizFormat.input) && !s.showResult &&
      decide (s.currentIndex < s.quizItems.length)
  | .giveUp =>
    inQuizUI s && decide (s.quizFormat = QuizFormat.input) && !s.showResult &&
      decide (s.currentIndex < s.quizItems.length)
  | .chooseChoice idx =>
    inQuizUI s && decide (s.quizFormat = QuizFormat.choice) && !s.showResult &&
      decide (idx < s.choices.length)
  | .setFormat _ => inQuizUI s
  | .nextQuestion => inQuizUI s && s.showResult
  | .backToList => inQuizUI s
  | .regenChoices _ _ =>
    inQuizUI s && decide (s.quizFormat = QuizFormat.choice) &&
      decide (s.currentIndex < s.quizItems.length)

/-- The state change performed by each handler (App.tsx lines 264-328,
576-597, 639-652). -/
def applyEvent (s : AppState) : Event → AppState
  | .typeAnswer t => { s with userAnswer := t }
  | .submitAnswer =>
    match s.quizItems.get? s.currentIndex with
    | none => s
    | some it =>
      let correct := checkAnswer it.reading s.userAnswer
      { s with isCorrect := correct, showResult := true,
               score := if correct then { s.score with correct := s.score.correct + 1 }
                        else { s.score with incorrect := s.score.incorrect + 1 } }
  | .giveUp =>
    match s.quizItems.get? s.currentIndex with
    | none => s
    | some _ =>
      { s with isCorrect := false, showResult := true,
               score := { s.score with incorrect := s.score.incorrect + 1 } }
  | .chooseChoice idx =>
    let correct := decide ((idx : Int) = s.correctChoiceIndex)
    { s with userAnswer := (s.choices.get? idx).getD [], isCorrect := correct, showResult := true,
             score := if correct then { s.score with correct := s.score.correct + 1 }
                      else { s.score with incorrect := s.score.incorrect + 1 } }
  | .setFormat f => { s with quizFormat := f, userAnswer := [], showResult := false }
  | .nextQuestion =>
    if s.currentIndex < s.quizItems.length - 1 then
      { s with currentIndex := s.currentIndex + 1, userAnswer := [], showResult := false }
    else
      { s with mode := .list, userAnswer := [], showResult := false }
  | .backToList => { s with mode := .list, userAnswer := [], showResult := false }
  | .regenChoices shuffledOthers slotIdx =>
    match s.quizItems.get? s.currentIndex with
    | none => s
    | some it =>
      let r := generateChoices it shuffledOthers slotIdx
      { s with choices := r.1, correctChoiceIndex := (r.2 : Int) }

/-- One step of the session state machine: an event that cannot fire leaves
the state unchanged. -/
def step (s : AppState) (e : Event) : AppState :=
  if enabled s e then applyEvent s e else s

/-- Run a sequence of events. -/
def run (s : AppState) : List Event → AppState
  | [] => s
  | e :: es => run (step s e) es

/-- The specification's restriction on format changes: a `setFormat` event may
occur only while no answer is submitted for the current question. -/
def specOk : AppState → List Event → Bool
  | _, [] => true
  | s, e :: es =>
    (match e with
     | .setFormat _ => !s.showResult
     | _ => true) && specOk (step s e) es

/-- The events that answer the current question. -/
def isAnswerEvent : Event → Bool
  | .submitAnswer => true
  | .giveUp => true
  | .chooseChoice _ => true
  | _ => false

/-- Number of questions answered along a trace: answer events that actually
fire. -/
def answeredCount : AppState → List Event → Nat
  | _, [] => 0
  | s, e :: es =>
    (if isAnswerEvent e && enabled s e then 1 else 0) + answeredCount (step s e) es

/-- Sum of the two score counters. -/
def scoreTotal (s : AppState) : Nat :=
  s.score.correct + s.score.incorrect

/-! ### Lemmas about the reading-annotation scanners -/

theorem textConcat_reverse_cons (seg : Seg) (segs : List Seg) :
    textConcat ((seg :: segs).reverse) = textConcat segs.reverse ++ seg.text := by
  simp [textConcat]

theorem textConcat_pushPlainRev (c : Char) (segs : List Seg) :
    textConcat ((pushPlainRev c segs).reverse) = textConcat segs.reverse ++ [c] := by
  match segs with
  | [] => simp [pushPlainRev, textConcat]
  | ⟨t, false⟩ :: tl =>
    rw [show pushPlainRev c (⟨t, false⟩ :: tl) = ⟨t ++ [c], false⟩ :: tl from rfl,
      textConcat_reverse_cons, textConcat_reverse_cons]
    simp
  | ⟨t, true⟩ :: tl =>
    rw [show pushPlainRev c (⟨t, true⟩ :: tl) = ⟨[c], false⟩ :: ⟨t, true⟩ :: tl from rfl,
      textConcat_reverse_cons]

theorem renderGo_textConcat_of_wellFormed :
    ∀ (l : List Char) (segs : List Seg) (pending : Option (List Char)),
      wellFormedGo l pending = true →
      textConcat (renderGo l segs pending) =
        textConcat segs.reverse ++ (match pending with | none => [] | some buf => buf) ++
          l.filter (fun c => c != '\'')
  | [], segs, none, _ => by simp [renderGo]
  | [], _, some _, h => by simp [wellFormedGo] at h
  | c :: cs, segs, none, h => by
    by_cases hc : c = '\''
    · subst hc
      have hwf : wellFormedGo cs (some []) = true := by simpa [wellFormedGo] using h
      rw [show renderGo ('\'' :: cs) segs none = renderGo cs segs (some []) from by
        simp [renderGo]]
      rw [renderGo_textConcat_of_wellFormed cs segs (some []) hwf]
      simp
    · have hwf : wellFormedGo cs none = true := by simpa [wellFormedGo, hc] using h
      rw [show renderGo (c :: cs) segs none = renderGo cs (pushPlainRev c segs) none from by
        simp [renderGo, hc]]
      rw [renderGo_textConcat_of_wellFormed cs (pushPlainRev c segs) none hwf,
        textConcat_pushPlainRev]
      simp [List.filter_cons, hc]
  | c :: cs, segs, some buf, h => by
    by_cases hc : c = '\''
    · subst hc
      have hbuf : buf ≠ [] ∧ wellFormedGo cs none = true := by
        simpa [wellFormedGo] using h
      rw [show renderGo ('\'' :: cs) segs (some buf) = renderGo cs (⟨buf, true⟩ :: segs) none from by
        simp [renderGo, hbuf.1]]
      rw [renderGo_textConcat_of_wellFormed cs (⟨buf, true⟩ :: segs) none hbuf.2,
        textConcat_reverse_cons]
      simp
    · have hwf : wellFormedGo cs (some (buf ++ [c])) = true := by
        simpa [wellFormedGo, hc] using h
      rw [show renderGo (c :: cs) segs (some buf) = renderGo cs segs (some (buf ++ [c])) from by
        simp [renderGo, hc]]
      rw [renderGo_textConcat_of_wellFormed cs segs (some (buf ++ [c])) hwf]
      simp [List.filter_cons, hc]

theorem coreGo_no_quote_none (l : List Char) :
    ∀ (acc : List Char), '\'' ∉ l → extractReadingCoreGo l acc none = acc ++ l := by
  induction l with
  | nil => intro acc _; simp [extractReadingCoreGo]
  | cons c cs ih =>
    intro acc h
    have hc : ¬ c = '\'' := fun hq => h (hq ▸ List.mem_cons_self c cs)
    rw [show extractReadingCoreGo (c :: cs) acc none = extractReadingCoreGo cs (acc ++ [c]) none from by
      simp [extractReadingCoreGo, hc]]
    rw [ih (acc ++ [c]) (fun hm => h (List.mem_cons_of_mem c hm))]
    simp

theorem coreGo_no_quote_some (l : List Char) :
    ∀ (acc buf : List Char), '\'' ∉ l →
      extractReadingCoreGo l acc (some buf) = acc ++ '\'' :: (buf ++ l) := by
  induction l with
  | nil => intro acc buf _; simp [extractReadingCoreGo]
  | cons c cs ih =>
    intro acc buf h
    have hc : ¬ c = '\'' := fun hq => h (hq ▸ List.mem_cons_self c cs)
    rw [show extractReadingCoreGo (c :: cs) acc (some buf) =
        extractReadingCoreGo cs acc (some (buf ++ [c])) from by
      simp [extractReadingCoreGo, hc]]
    rw [ih acc (buf ++ [c]) (fun hm => h (List.mem_cons_of_mem c hm))]
    simp

theorem coreGo_append_no_quote (x : List Char) :
    ∀ (y acc : List Char), '\'' ∉ x →
      extractReadingCoreGo (x ++ y) acc none = extractReadingCoreGo y (acc ++ x) none := by
  induction x with
  | nil => intro y acc _; simp
  | cons c cs ih =>
    intro y acc h
    have hc : ¬ c = '\'' := fun hq => h (hq ▸ List.mem_cons_self c cs)
    rw [List.cons_append,
      show extractReadingCoreGo (c :: (cs ++ y)) acc none =
        extractReadingCoreGo (cs ++ y) (acc ++ [c]) none from by
        simp [extractReadingCoreGo, hc]]
    rw [ih y (acc ++ [c]) (fun hm => h (List.mem_cons_of_mem c hm))]
    simp

theorem coreGo_shape :
    ∀ (l acc : List Char) (pending : Option (List Char)), '\'' ∉ acc →
      (∀ b, pending = some b → '\'' ∉ b) →
      ∃ a b, '\'' ∉ a ∧ '\'' ∉ b ∧
        (extractReadingCoreGo l acc pending = a ∨
         extractReadingCoreGo l acc pending = a ++ '\'' :: b)
  | [], acc, none, hacc, _ =>
    ⟨acc, [], hacc, by simp, Or.inl (by simp [extractReadingCoreGo])⟩
  | [], acc, some buf, hacc, hbuf =>
    ⟨acc, buf, hacc, hbuf buf rfl, Or.inr (by simp [extractReadingCoreGo])⟩
  | c :: cs, acc, none, hacc, _ => by
    by_cases hc : c = '\''
    · subst hc
      rw [show extractReadingCoreGo ('\'' :: cs) acc none = extractReadingCoreGo cs acc (some []) from by
        simp [extractReadingCoreGo]]
      exact coreGo_shape cs acc (some []) hacc (by intro b hb; cases hb; simp)
    · rw [show extractReadingCoreGo (c :: cs) acc none = extractReadingCoreGo cs (acc ++ [c]) none from by
        simp [extractReadingCoreGo, hc]]
      refine coreGo_shape cs (acc ++ [c]) none ?_ (by intro b hb; cases hb)
      intro hm
      rcases List.mem_append.mp hm with hm | hm
      · exact hacc hm
      · simp at hm; exact hc hm.symm
  | c :: cs, acc, some buf, hacc, hbuf => by
    by_cases hc : c = '\''
    · subst hc
      rw [show extractReadingCoreGo ('\'' :: cs) acc (some buf) = extractReadingCoreGo cs acc none from by
        simp [extractReadingCoreGo]]
      exact coreGo_shape cs acc none hacc (by intro b hb; cases hb)
    · rw [show extractReadingCoreGo (c :: cs) acc (some buf) =
          extractReadingCoreGo cs acc (some (buf ++ [c])) from by
        simp [extractReadingCoreGo, hc]]
      refine coreGo_shape cs acc (some (buf ++ [c])) hacc ?_
      intro b hb
      cases hb
      intro hm
      rcases List.mem_append.mp hm with hm | hm
      · exact hbuf buf rfl hm
      · simp at hm; exact hc hm.symm

theorem core_of_no_quote (a : List Char) (ha : '\'' ∉ a) : extractReadingCore a = a := by
  unfold extractReadingCore
  rw [coreGo_no_quote_none a [] ha]
  simp

theorem core_of_one_quote (a b : List Char) (ha : '\'' ∉ a) (hb : '\'' ∉ b) :
    extractReadingCore (a ++ '\'' :: b) = a ++ '\'' :: b := by
  unfold extractReadingCore
  rw [coreGo_append_no_quote a ('\'' :: b) [] ha]
  rw [show extractReadingCoreGo ('\'' :: b) ([] ++ a) none =
      extractReadingCoreGo b ([] ++ a) (some []) from by
    simp [extractReadingCoreGo]]
  rw [coreGo_no_quote_some b ([] ++ a) [] hb]
  simp

/-! ### Claims about `formatReadingWithOkurigana` and `extractReadingCore` -/

/-- C3 (counterexample): the reading string consisting of two adjacent emphasis
delimiters has a balanced (even, pairing-up) delimiter count, yet the
concatenated text of its render segments keeps both delimiter characters,
because the render regex only matches spans with non-empty contents.  So the
claim as stated is false at the input `''`. -/
theorem c3_render_counterexample :
    ("''".data.count '\'' = 2) ∧
    textConcat (formatReadingWithOkurigana "''".data) ≠
      "''".data.filter (fun c => c != '\'') := by
  decide

/-- C3 (amended): for every raw reading string whose emphasis delimiters are
balanced with every paired span non-empty, the concatenation of the text of
all segments produced by `formatReadingWithOkurigana` equals the original
string with every delimiter character removed. -/
theorem c3_render_amended (s : List Char) (h : wellFormedReading s = true) :
    textConcat (formatReadingWithOkurigana s) = s.filter (fun c => c != '\'') := by
  unfold formatReadingWithOkurigana
  rw [renderGo_textConcat_of_wellFormed s [] none h]
  simp [textConcat]

/-- C3 (witness): the amended statement evaluated on the sample reading. -/
theorem c3_render_amended_witness :
    textConcat (formatReadingWithOkurigana "'てる'、ひかる".data) =
      "'てる'、ひかる".data.filter (fun c => c != '\'') :=
  c3_render_amended "'てる'、ひかる".data (by decide)

/-- C7: `extractReadingCore` is idempotent.  Its output contains at most one
quote character (the leftover of an unterminated span), and on such strings
the scanner is the identity. -/
theorem c7_core_idempotent (s : List Char) :
    extractReadingCore (extractReadingCore s) = extractReadingCore s := by
  obtain ⟨a, b, ha, hb, h | h⟩ :=
    coreGo_shape s [] none (by simp) (by intro b hb; cases hb)
  · rw [show extractReadingCore s = a from h]
    exact core_of_no_quote a ha
  · rw [show extractReadingCore s = a ++ '\'' :: b from h]
    exact core_of_one_quote a b ha hb

/-! ### Claims about the answer validator -/

/-- C4 (counterexample): for the entry whose reading is `'x' あ` (an emphasis
span followed by a space and a kana), the only alternative produced by
splitting on the full-width comma is the whole reading, whose core is the
string `␣あ` with a leading space; submitting that core is judged incorrect,
because `checkAnswer` trims the submitted text but compares it against the
untrimmed core of the trimmed alternative.  So the claim as stated is false. -/
theorem c4_core_alt_counterexample :
    ("'x' あ".data ∈ splitOn '、' "'x' あ".data) ∧
    checkAnswer "'x' あ".data (extractReadingCore "'x' あ".data) = false := by
  decide

/-- C4 (amended): for every entry and every alternative `alt` obtained by
splitting the entry's reading on the full-width comma, if neither `alt` nor
`core(alt)` carries leading or trailing whitespace, then submitting
`core(alt)` is judged correct. -/
theorem c4_core_alt_amended (reading alt : List Char)
    (hmem : alt ∈ splitOn '、' reading)
    (halt : trim alt = alt)
    (hcore : trim (extractReadingCore alt) = extractReadingCore alt) :
    checkAnswer reading (extractReadingCore alt) = true := by
  unfold checkAnswer
  simp only [List.any_eq_true]
  refine ⟨trim alt, List.mem_map_of_mem trim hmem, ?_⟩
  rw [halt, hcore]
  exact beq_self_eq_true _

/-- C4 (witness): the amended statement evaluated on the sample entry and its
second alternative. -/
theorem c4_core_alt_amended_witness :
    checkAnswer "'てる'、ひかる".data (extractReadingCore "ひかる".data) = true :=
  c4_core_alt_amended "'てる'、ひかる".data "ひかる".data (by decide) (by decide) (by decide)

/-- C5: for the entry whose reading is `'てる'、ひかる`, the input-mode check
judges `ひかる` correct and `てる` incorrect (the emphasized span is removed
wholesale from the core form, so its text alone is not acceptable). -/
theorem c5_scenario_check :
    checkAnswer "'てる'、ひかる".data "ひかる".data = true ∧
    checkAnswer "'てる'、ひかる".data "てる".data = false := by
  decide

/-! ### Claims about record construction -/

theorem objLookup_rowToObj_eq_none (header : List (List Char)) (cols : List (List Char))
    (name : List Char)
    (h : ∀ i, i < cols.length → objKey header i ≠ name) :
    objLookup name (rowToObj header cols) = none := by
  unfold objLookup rowToObj
  rw [List.find?_eq_none.mpr]
  · rfl
  · intro p hp
    rw [List.mem_reverse, List.mem_map] at hp
    obtain ⟨i, hi, hpi⟩ := hp
    rw [List.mem_range] at hi
    subst hpi
    simpa using h i hi

/-- C6: a data row that parses to fewer fields than the header has columns is
still mapped to an `Item` (construction is total, never an error), and each of
the `reading`, tag (`additionalInfo`) and `components` fields whose column is
not covered by the parsed row defaults to the empty string. -/
theorem c6_short_row_defaults (selectedLevel : Nat) (header : List (List Char))
    (line : List Char)
    (hshort : (parseCSVLine line).length < header.length) :
    ((∀ i, i < (parseCSVLine line).length → objKey header i ≠ "reading".data) →
      (rowToItem selectedLevel header line).reading = []) ∧
    ((∀ i, i < (parseCSVLine line).length → objKey header i ≠ "additional_info".data) →
      (rowToItem selectedLevel header line).additionalInfo = []) ∧
    ((∀ i, i < (parseCSVLine line).length → objKey header i ≠ "components".data) →
      (rowToItem selectedLevel header line).components = []) := by
  refine ⟨fun h => ?_, fun h => ?_, fun h => ?_⟩ <;>
    simp [rowToItem, objLookup_rowToObj_eq_none header (parseCSVLine line) _ h, jsOrStr]

/-- C6 (witness): with the five-column sample header, the one-field row
`img1.png` yields an entry whose reading, tags and components are all empty. -/
theorem c6_short_row_defaults_witness :
    (rowToItem 7 (processHeader "path,reading,meaning,additional_info,components".data)
      "img1.png".data).reading = [] ∧
    (rowToItem 7 (processHeader "path,reading,meaning,additional_info,components".data)
      "img1.png".data).additionalInfo = [] ∧
    (rowToItem 7 (processHeader "path,reading,meaning,additional_info,components".data)
      "img1.png".data).components = [] := by
  have h := c6_short_row_defaults 7
    (processHeader "path,reading,meaning,additional_info,components".data)
    "img1.png".data (by decide)
  exact ⟨h.1 (by decide), h.2.1 (by decide), h.2.2 (by decide)⟩

/-! ### Claim about the tag filter -/

/-- The tag-filter behaviour as worded by the claim (the specification side of
the refinement): `all` keeps everything, the no-genre sentinel keeps entries
whose tag text contains no known genre label, any other value keeps entries
whose tag text contains it as a case-sensitive sub-string. -/
def tagFilterSpec (tag : List Char) (item : Item) : Prop :=
  if tag = allTag then True
  else if tag = noGenreTag then ∀ genre ∈ definedGenres, ¬ genre <:+: item.additionalInfo
  else tag <:+: item.additionalInfo

/-- C8: the genre filter returns exactly the entries described by the claim:
everything for `all`, the entries containing no known genre label for the
no-genre sentinel, and the entries containing the tag as a case-sensitive
sub-string otherwise. -/
theorem c8_tag_filter (tag : List Char) (items : List Item) (it : Item) :
    it ∈ filterByGenre tag items ↔ it ∈ items ∧ tagFilterSpec tag it := by
  unfold filterByGenre tagFilterSpec
  split_ifs with h1 h2
  · simp
  · simp [List.mem_filter, jsIncludes]
  · simp [List.mem_filter, jsIncludes]

/-! ### Claims about choice-set generation -/

/-- A catalog entry with the given identifying name and reading and no other
data, used by concrete instantiations. -/
def mkEntry (f r : List Char) : Item :=
  { filename := some f, reading := r, meaning := none, imageUrl := [],
    additionalInfo := [], components := [] }

/-- The correct entry of the C2 counterexample. -/
def c2Item : Item := mkEntry "c0".data "あ".data

/-- The session pool of the C2 counterexample: the wrong-answer candidate pool
holds at least 3 distinct raw readings (`い`, `あ''`, `う`), yet it contains a
repeated reading and a reading whose core collides with the correct core. -/
def c2All : List Item :=
  [c2Item, mkEntry "i1".data "い".data, mkEntry "i1b".data "い".data,
   mkEntry "i2".data "あ''".data, mkEntry "i3".data "う".data]

/-- C2 (counterexample): with the pool `c2All`, the wrong-answer candidate
pool has 3 distinct raw readings, the identity shuffle is a permutation of it
and the slot index 0 is in range, yet the four displayed strings are not
pairwise distinct (`あ, い, い, あ`): the slice keeps a duplicated reading and
the core of `あ''` collides with the correct core.  So the distinctness part
of the claim as stated is false. -/
theorem c2_choice_counterexample :
    3 ≤ ((wrongAnswerPool c2Item c2All).map (fun it => it.reading)).dedup.length ∧
    (wrongAnswerPool c2Item c2All).Perm (wrongAnswerPool c2Item c2All) ∧
    (0 : Nat) < 4 ∧
    ¬ ((generateChoices c2Item (wrongAnswerPool c2Item c2All) 0).1.Pairwise
        (fun a b => a ≠ b)) := by
  decide

/-- C2 (amended): for every current entry, session pool and random outcomes,
choice generation returns exactly 4 display slots with the single correct slot
at the random index in `[0,4)` and never crashes — with an empty wrong-answer
pool the wrong slots fall back to the empty-core placeholder — and whenever
the wrong-answer pool has at least 3 entries whose core readings, together
with the correct entry's core reading, are pairwise distinct, the 4 displayed
strings are pairwise distinct.  (The original claim required only 3 distinct
raw readings in the pool, which the counterexample refutes.) -/
theorem c2_choice_amended (correctItem : Item) (allItems shuffledOthers : List Item)
    (ci : Nat) (hci : ci < 4)
    (hperm : shuffledOthers.Perm (wrongAnswerPool correctItem allItems)) :
    (generateChoices correctItem shuffledOthers ci).1.length = 4 ∧
    (generateChoices correctItem shuffledOthers ci).2 = ci ∧
    (generateChoices correctItem shuffledOthers ci).1.get? ci =
      some (extractReadingCore correctItem.reading) ∧
    (shuffledOthers = [] → ∀ j, j < 4 → j ≠ ci →
      (generateChoices correctItem shuffledOthers ci).1.get? j = some []) ∧
    (3 ≤ (wrongAnswerPool correctItem allItems).length →
      ((correctItem.reading ::
          (wrongAnswerPool correctItem allItems).map (fun it => it.reading)).map
        extractReadingCore).Pairwise (fun a b => a ≠ b) →
      (generateChoices correctItem shuffledOthers ci).1.Pairwise (fun a b => a ≠ b)) := by
  refine ⟨?_, rfl, ?_, ?_, ?_⟩
  · interval_cases ci <;> simp [generateChoices, choicesLoop]
  · interval_cases ci <;> simp [generateChoices, choicesLoop]
  · intro h0 j hj hne
    subst h0
    interval_cases ci <;> interval_cases j <;>
      simp_all [generateChoices, choicesLoop, extractReadingCore, extractReadingCoreGo]
  · intro hlen3 hpair
    have hlenS : shuffledOthers.length = (wrongAnswerPool correctItem allItems).length :=
      hperm.length_eq
    have hw : ((shuffledOthers.take 3).map (fun it => it.reading)).length = 3 := by
      simp only [List.length_map, List.length_take]
      omega
    obtain ⟨a, b, c, habc⟩ := List.length_eq_three.mp hw
    have hsymm : ∀ {x y : List Char}, x ≠ y → y ≠ x := fun h => h.symm
    have hpermA :
        ((shuffledOthers.map (fun it => it.reading)).map extractReadingCore).Perm
          (((wrongAnswerPool correctItem allItems).map (fun it => it.reading)).map
            extractReadingCore) :=
      (hperm.map (fun it => it.reading)).map extractReadingCore
    have hpairB :
        (extractReadingCore correctItem.reading ::
          ((wrongAnswerPool correctItem allItems).map (fun it => it.reading)).map
            extractReadingCore).Pairwise (fun x y : List Char => x ≠ y) := by
      simpa using hpair
    have hpairA :
        (extractReadingCore correctItem.reading ::
          (shuffledOthers.map (fun it => it.reading)).map extractReadingCore).Pairwise
          (fun x y : List Char => x ≠ y) :=
      ((hpermA.cons (extractReadingCore correctItem.reading)).pairwise_iff hsymm).mpr hpairB
    have hsub :
        (extractReadingCore correctItem.reading ::
          ((shuffledOthers.take 3).map (fun it => it.reading)).map extractReadingCore).Sublist
          (extractReadingCore correctItem.reading ::
            (shuffledOthers.map (fun it => it.reading)).map extractReadingCore) := by
      refine List.Sublist.cons₂ _ ?_
      simp only [List.map_take]
      exact List.take_sublist 3 _
    have hpairW := List.Pairwise.sublist hsub hpairA
    rw [habc] at hpairW
    simp only [List.map_cons, List.map_nil, List.pairwise_cons, List.mem_cons,
      List.not_mem_nil, List.mem_singleton] at hpairW
    simp only [generateChoices]
    rw [habc]
    interval_cases ci <;>
      simp [choicesLoop, List.pairwise_cons] <;>
      aesop
/-- C2 (witness): the amended statement on a one-entry pool in choice mode:
generation does not fail, returns 4 slots with the correct core at the random
index 2, and fills a wrong slot with the empty-core placeholder. -/
theorem c2_choice_amended_witness :
    (generateChoices c2Item [] 2).1.length = 4 ∧
    (generateChoices c2Item [] 2).2 = 2 ∧
    (generateChoices c2Item [] 2).1.get? 2 = some (extractReadingCore c2Item.reading) ∧
    (generateChoices c2Item [] 2).1.get? 0 = some [] := by
  have h := c2_choice_amended c2Item [c2Item] [] 2 (by decide) (by decide)
  exact ⟨h.1, h.2.1, h.2.2.1, h.2.2.2.1 rfl 0 (by decide) (by decide)⟩

/-! ### Claims about the session score invariant -/

/-- Position lookups below the length always succeed. -/
theorem get?_isSome_of_lt {l : List Item} {n : Nat} (h : n < l.length) :
    ∃ it, l.get? n = some it := by
  cases hq : l.get? n with
  | none => exact absurd (List.get?_eq_none.mp hq) (by omega)
  | some it => exact ⟨it, rfl⟩

/-- Each step changes the score total by exactly one when an answer event
fires and leaves it unchanged otherwise. -/
theorem scoreTotal_step (s : AppState) (e : Event) :
    scoreTotal (step s e) =
      scoreTotal s + (if isAnswerEvent e && enabled s e then 1 else 0) := by
  unfold step
  by_cases he : enabled s e
  · simp only [he, if_true, Bool.and_true]
    cases e with
    | typeAnswer t => simp [applyEvent, isAnswerEvent, scoreTotal]
    | submitAnswer =>
      have he' := he
      simp only [enabled, inQuizUI, Bool.and_eq_true, Bool.not_eq_true',
        decide_eq_true_eq] at he'
      obtain ⟨it, hit⟩ := get?_isSome_of_lt he'.2
      simp only [applyEvent, hit, isAnswerEvent, scoreTotal]
      split <;> simp <;> omega
    | giveUp =>
      have he' := he
      simp only [enabled, inQuizUI, Bool.and_eq_true, Bool.not_eq_true',
        decide_eq_true_eq] at he'
      obtain ⟨it, hit⟩ := get?_isSome_of_lt he'.2
      simp only [applyEvent, hit, isAnswerEvent, scoreTotal]
      simp
      omega
    | chooseChoice idx =>
      simp only [applyEvent, isAnswerEvent, scoreTotal]
      split <;> simp <;> omega
    | setFormat f => simp [applyEvent, isAnswerEvent, scoreTotal]
    | nextQuestion =>
      simp only [applyEvent, isAnswerEvent, scoreTotal]
      split <;> simp
    | backToList => simp [applyEvent, isAnswerEvent, scoreTotal]
    | regenChoices a b =>
      cases hq : s.quizItems.get? s.currentIndex <;>
        simp only [applyEvent, hq, isAnswerEvent, scoreTotal] <;> simp
  · have he0 : enabled s e = false := by simpa using he
    simp [he0]

/-- The session invariant of the amended C1: in quiz mode the score total is
bounded by the position plus one exactly when a result is shown, and overall
by the position plus one. -/
def sessionInv (s : AppState) : Prop :=
  (s.mode = Mode.quiz →
    scoreTotal s ≤ s.currentIndex + (if s.showResult then 1 else 0)) ∧
  scoreTotal s ≤ s.currentIndex + 1

/-- The invariant is preserved by every step whose format changes happen only
with no result shown. -/
theorem sessionInv_step (s : AppState) (e : Event) (hinv : sessionInv s)
    (hfmt : ∀ f, e = Event.setFormat f → s.showResult = false) :
    sessionInv (step s e) := by
  obtain ⟨hq1, hq2⟩ := hinv
  unfold step
  by_cases he : enabled s e
  · simp only [he, if_true]
    cases e with
    | typeAnswer t =>
      exact ⟨fun h => by simpa [applyEvent, scoreTotal] using hq1 h,
        by simpa [applyEvent, scoreTotal] using hq2⟩
    | submitAnswer =>
      have he' := he
      simp only [enabled, inQuizUI, Bool.and_eq_true, Bool.not_eq_true',
        decide_eq_true_eq] at he'
      obtain ⟨⟨⟨⟨hmq, _⟩, _⟩, hsr⟩, hlt⟩ := he'
      obtain ⟨it, hit⟩ := get?_isSome_of_lt hlt
      have h1 := hq1 hmq
      rw [hsr] at h1
      simp [scoreTotal] at h1
      constructor
      · intro _
        simp only [applyEvent, hit, scoreTotal]
        split <;> simp <;> omega
      · simp only [applyEvent, hit, scoreTotal]
        split <;> simp <;> omega
    | giveUp =>
      have he' := he
      simp only [enabled, inQuizUI, Bool.and_eq_true, Bool.not_eq_true',
        decide_eq_true_eq] at he'
      obtain ⟨⟨⟨⟨hmq, _⟩, _⟩, hsr⟩, hlt⟩ := he'
      obtain ⟨it, hit⟩ := get?_isSome_of_lt hlt
      have h1 := hq1 hmq
      rw [hsr] at h1
      simp [scoreTotal] at h1
      constructor
      · intro _
        simp only [applyEvent, hit, scoreTotal]
        try simp
        omega
      · simp only [applyEvent, hit, scoreTotal]
        try simp
        omega
    | chooseChoice idx =>
      have he' := he
      simp only [enabled, inQuizUI, Bool.and_eq_true, Bool.not_eq_true',
        decide_eq_true_eq] at he'
      obtain ⟨⟨⟨⟨hmq, _⟩, _⟩, hsr⟩, _⟩ := he'
      have h1 := hq1 hmq
      rw [hsr] at h1
      simp [scoreTotal] at h1
      constructor
      · intro _
        simp only [applyEvent, scoreTotal]
        split <;> simp <;> omega
      · simp only [applyEvent, scoreTotal]
        split <;> simp <;> omega
    | setFormat f =>
      have hsr := hfmt f rfl
      have h1' : s.mode = Mode.quiz → scoreTotal s ≤ s.currentIndex := by
        intro h
        have := hq1 h
        rw [hsr] at this
        simpa using this
      constructor
      · intro h
        simp only [applyEvent] at h ⊢
        simpa [scoreTotal] using h1' (by simpa using h)
      · simpa [applyEvent, scoreTotal] using hq2
    | nextQuestion =>
      have he' := he
      simp only [enabled, inQuizUI, Bool.and_eq_true, decide_eq_true_eq] at he'
      have hsr : s.showResult = true := he'.2
      have hmq : s.mode = Mode.quiz := he'.1.1
      have h1' : scoreTotal s ≤ s.currentIndex + 1 := by
        have := hq1 hmq
        rw [hsr] at this
        simpa using this
      simp only [scoreTotal] at h1' hq2
      simp only [applyEvent]
      split
      · constructor
        · intro _
          simp [scoreTotal]
          omega
        · simp [scoreTotal]
          omega
      · constructor
        · intro h
          simp at h
        · simp [scoreTotal]
          omega
    | backToList =>
      exact ⟨fun h => by simp [applyEvent] at h, by simpa [applyEvent, scoreTotal] using hq2⟩
    | regenChoices a b =>
      simp only [applyEvent]
      cases hq : s.quizItems.get? s.currentIndex with
      | none =>
        simp only [hq]
        exact ⟨hq1, hq2⟩
      | some it =>
        simp only [hq]
        exact ⟨fun h => by simpa [scoreTotal] using hq1 (by simpa using h),
          by simpa [scoreTotal] using hq2⟩
  · simpa [he] using And.intro hq1 hq2

/-- The invariant holds after any trace that respects the restriction on
format changes. -/
theorem sessionInv_run :
    ∀ (es : List Event) (s : AppState), sessionInv s → specOk s es = true →
      sessionInv (run s es)
  | [], _, hinv, _ => hinv
  | e :: es, s, hinv, hspec => by
    simp only [specOk, Bool.and_eq_true] at hspec
    refine sessionInv_run es (step s e) (sessionInv_step s e hinv ?_) hspec.2
    intro f hef
    subst hef
    simpa using hspec.1

/-- The score total after a trace counts exactly the answer events that
fired. -/
theorem scoreTotal_run :
    ∀ (es : List Event) (s : AppState),
      scoreTotal (run s es) = scoreTotal s + answeredCount s es
  | [], s => by simp [run, answeredCount]
  | e :: es, s => by
    rw [show run s (e :: es) = run (step s e) es from rfl,
      scoreTotal_run es (step s e), scoreTotal_step s e]
    simp only [answeredCount]
    omega

/-- The scored entry and session of the C1 counterexample. -/
def c1Item : Item := mkEntry "a".data "ひかる".data

/-- The C1 counterexample's freshly started one-question session. -/
def c1Start : AppState :=
  { selectedLevel := 7, items := some [c1Item], selectedGenre := allTag,
    searchQuery := [], searchMode := .reading, mode := .quiz, quizFormat := .input,
    quizItems := [c1Item], currentIndex := 0, userAnswer := [], showResult := false,
    isCorrect := false, score := ⟨0, 0⟩, choices := [], correctChoiceIndex := -1 }

/-- The C1 counterexample trace: answer the first question wrongly in input
format, switch the format (which the code allows even after the answer and
which clears the shown result), regenerate the choice set, and answer the same
question again in choice format.  Every event fires under the code's own
guards. -/
def c1Trace : List Event :=
  [.typeAnswer "x".data, .submitAnswer, .setFormat .choice,
   .regenChoices [] 1, .chooseChoice 0]

/-- C1 (counterexample): after the trace `c1Trace`, the session is still at
position 0 but `correct + incorrect = 2 > position + 1`: the code lets a
format change reopen an already-answered question, so the counters can
increment twice for one question.  The claim as stated is therefore false. -/
theorem c1_score_counterexample :
    scoreTotal (run c1Start c1Trace) = 2 ∧
    (run c1Start c1Trace).currentIndex = 0 ∧
    ¬ (scoreTotal (run c1Start c1Trace) ≤ (run c1Start c1Trace).currentIndex + 1) := by
  decide

/-- C1 (amended): over every event trace from a freshly scored quiz state in
which format changes happen only while no answer is submitted for the current
question (the restriction the specification imposes), the score counters sum
to the number of questions answered, never exceed `position + 1`, and a format
change never alters the score. -/
theorem c1_score_invariant (s0 : AppState) (es : List Event)
    (hmode : s0.mode = Mode.quiz) (hscore : s0.score = ⟨0, 0⟩)
    (hshow : s0.showResult = false) (hidx : s0.currentIndex = 0)
    (hspec : specOk s0 es = true) :
    scoreTotal (run s0 es) = answeredCount s0 es ∧
    scoreTotal (run s0 es) ≤ (run s0 es).currentIndex + 1 ∧
    (∀ f, (step (run s0 es) (Event.setFormat f)).score = (run s0 es).score) := by
  have hinv : sessionInv s0 := by
    constructor
    · intro _
      simp [scoreTotal, hscore]
    · simp [scoreTotal, hscore]
  have h2 := sessionInv_run es s0 hinv hspec
  refine ⟨?_, h2.2, ?_⟩
  · rw [scoreTotal_run es s0]
    simp [scoreTotal, hscore]
  · intro f
    unfold step
    split <;> simp [applyEvent]

/-- C1 (witness): the amended statement on a one-question session answered
once and then advanced. -/
theorem c1_score_invariant_witness :
    scoreTotal (run c1Start [Event.submitAnswer, Event.nextQuestion]) =
      answeredCount c1Start [Event.submitAnswer, Event.nextQuestion] ∧
    scoreTotal (run c1Start [Event.submitAnswer, Event.nextQuestion]) ≤
      (run c1Start [Event.submitAnswer, Event.nextQuestion]).currentIndex + 1 ∧
    (step (run c1Start [Event.submitAnswer, Event.nextQuestion])
      (Event.setFormat QuizFormat.choice)).score =
      (run c1Start [Event.submitAnswer, Event.nextQuestion]).score := by
  have h := c1_score_invariant c1Start [Event.submitAnswer, Event.nextQuestion]
    rfl rfl rfl rfl (by decide)
  exact ⟨h.1, h.2.1, h.2.2 QuizFormat.choice⟩

/-! ### Claims about session start -/

/-- A sample catalog entry used by concrete instantiations. -/
def demoItem : Item :=
  { filename := some "img1.png".data, reading := "よみ".data, meaning := none,
    imageUrl := [], additionalInfo := [], components := [] }

/-- A browsing-mode application state over the given catalog. -/
def demoBrowsing (its : Option (List Item)) : AppState :=
  { selectedLevel := 7, items := its, selectedGenre := allTag, searchQuery := [],
    searchMode := .reading, mode := .list, quizFormat := .input, quizItems := [],
    currentIndex := 0, userAnswer := [], showResult := false, isCorrect := false,
    score := ⟨0, 0⟩, choices := [], correctChoiceIndex := -1 }

/-- C9: starting a quiz with an absent or empty catalog is a no-op (the state,
including the browsing mode, is unchanged); starting with a non-empty catalog
produces a session whose working set is the shuffle outcome (a permutation of
the pool), with position 0, score `{0,0}`, no result shown, quiz mode entered,
and the answer format inherited unchanged. -/
theorem c9_start_session (s : AppState) (shuffled : List Item) :
    ((s.items = none ∨ s.items = some []) → startQuiz shuffled s = s) ∧
    (∀ pool, s.items = some pool → pool ≠ [] → shuffled.Perm pool →
      (startQuiz shuffled s).quizItems.Perm pool ∧
      (startQuiz shuffled s).currentIndex = 0 ∧
      (startQuiz shuffled s).score = ⟨0, 0⟩ ∧
      (startQuiz shuffled s).showResult = false ∧
      (startQuiz shuffled s).mode = Mode.quiz ∧
      (startQuiz shuffled s).quizFormat = s.quizFormat) := by
  constructor
  · rintro (h | h) <;> simp [startQuiz, h]
  · intro pool hp hne hperm
    have hlen : ¬ pool.length = 0 := by simpa [List.length_eq_zero] using hne
    simp [startQuiz, hp, hlen, hperm]

/-- C9 (witness): the no-op case on an absent catalog and the success case on
a one-entry catalog. -/
theorem c9_start_session_witness :
    startQuiz [] (demoBrowsing none) = demoBrowsing none ∧
    (startQuiz [demoItem] (demoBrowsing (some [demoItem]))).quizItems.Perm [demoItem] ∧
    (startQuiz [demoItem] (demoBrowsing (some [demoItem]))).currentIndex = 0 ∧
    (startQuiz [demoItem] (demoBrowsing (some [demoItem]))).score = ⟨0, 0⟩ ∧
    (startQuiz [demoItem] (demoBrowsing (some [demoItem]))).mode = Mode.quiz := by
  refine ⟨(c9_start_session (demoBrowsing none) []).1 (Or.inl rfl), ?_⟩
  have h := (c9_start_session (demoBrowsing (some [demoItem])) [demoItem]).2 [demoItem]
    rfl (by decide) (List.Perm.refl _)
  exact ⟨h.1, h.2.1, h.2.2.1, h.2.2.2.2.1⟩

/-- C10: the quiz working set is drawn from the whole loaded catalog — it is a
permutation of the full pool no matter which genre or search restriction is
active, and changing the genre, search query or search mode before starting
has no effect on the resulting working set. -/
theorem c10_quiz_ignores_filter (s : AppState) (shuffled pool : List Item)
    (hp : s.items = some pool) (hne : pool ≠ []) (hperm : shuffled.Perm pool) :
    (startQuiz shuffled s).quizItems.Perm pool ∧
    (∀ g q sm,
      (startQuiz shuffled
        { s with selectedGenre := g, searchQuery := q, searchMode := sm }).quizItems =
      (startQuiz shuffled s).quizItems) := by
  have hlen : ¬ pool.length = 0 := by simpa [List.length_eq_zero] using hne
  constructor
  · simp [startQuiz, hp, hlen, hperm]
  · intro g q sm
    simp [startQuiz, hp, hlen]

/-- C10 (witness): with a one-entry catalog, the working set is a permutation
of the full pool and is unchanged when a narrowing genre and search query are
active. -/
theorem c10_quiz_ignores_filter_witness :
    (startQuiz [demoItem] (demoBrowsing (some [demoItem]))).quizItems.Perm [demoItem] ∧
    (startQuiz [demoItem]
      { demoBrowsing (some [demoItem]) with
          selectedGenre := "動物".data
          searchQuery := "x".data
          searchMode := .component }).quizItems =
    (startQuiz [demoItem] (demoBrowsing (some [demoItem]))).quizItems := by
  have h := c10_quiz_ignores_filter (demoBrowsing (some [demoItem])) [demoItem] [demoItem]
    rfl (by decide) (List.Perm.refl _)
  exact ⟨h.1, h.2 "動物".data "x".data .component⟩

end KanjiGo
